import Mathlib

/-!
Shallow embedding of the GastosBot personal-finance bot (src/bot.py).

The SQLite tables `transactions`, `categories` and `recurring` are modelled
as Lean lists; SQL statements are translated operation by operation.
Python floats (SQLite `REAL` amounts) are modelled as rationals,
timestamps as natural numbers (seconds).  Side effects other than the
database (photo-file deletion, Google-Sheets sync) are recorded as an
explicit list of `Effect`s; whether the sheets sink is configured
(`sheets_sync.is_enabled()`) is passed as a boolean parameter.
-/

namespace GastosBot

/-- The `type` column, constrained by `CHECK(type IN ('gasto', 'ingreso'))`
in the schema (src/bot.py lines 52 and 66). -/
inductive TxType where
  | gasto
  | ingreso
deriving DecidableEq, Repr

/-- A row of the `transactions` table (src/bot.py lines 49-59). -/
structure Transaction where
  id : Nat
  user_id : Int
  type : TxType
  category : String
  amount : ℚ
  description : String
  payment_method : String
  photo_path : Option String
  created_at : Nat
deriving DecidableEq, Repr

/-- A row of the `categories` table (src/bot.py lines 61-68), with
`UNIQUE(user_id, name, type)`. -/
structure Category where
  user_id : Int
  name : String
  emoji : String
  type : TxType
deriving DecidableEq, Repr

/-- A row of the `recurring` table (src/bot.py lines 70-81). -/
structure Rule where
  id : Nat
  user_id : Int
  type : TxType
  category : String
  amount : ℚ
  description : String
  payment_method : String
  day_of_month : Nat
  active : Bool
  last_applied : Option String
deriving DecidableEq, Repr

/-- Database state: the mutable tables plus the AUTOINCREMENT counter of
`transactions.id` (SQLite keeps that counter in `sqlite_sequence`, so it is
not reset by deletions). -/
structure DB where
  transactions : List Transaction
  next_tx_id : Nat
  recurring : List Rule
deriving DecidableEq, Repr

/-- Side effects outside the database: the Google-Sheets sink calls
(`sheets_sync.sync_transaction`, `sheets_sync.sync_delete_last`) and the
best-effort deletion of a photo file (`os.remove`). -/
inductive Effect where
  | sinkAppend (tx_type : TxType) (category : String) (amount : ℚ)
      (description : String) (payment_method : String)
  | sinkDeleteLast
  | deletePhoto (path : String)
deriving DecidableEq, Repr

/-! ### seed_categories (src/bot.py lines 90-113) -/

/-- The fixed default expense categories (name, emoji), src/bot.py lines 92-97. -/
def default_gastos : List (String × String) :=
  [("🏠 Vivienda", "🏠"), ("🍽️ Comida", "🍽️"), ("🚗 Transporte", "🚗"),
   ("💡 Servicios", "💡"), ("🏥 Salud", "🏥"), ("📚 Educación", "📚"),
   ("🎮 Entretenimiento", "🎮"), ("👔 Ropa", "👔"), ("💰 Ahorro", "💰"),
   ("🎁 Otros", "🎁")]

/-- The fixed default income categories (name, emoji), src/bot.py lines 98-101. -/
def default_ingresos : List (String × String) :=
  [("💼 Salario", "💼"), ("💻 Freelance", "💻"), ("📈 Inversiones", "📈"),
   ("🏠 Rentas", "🏠"), ("🎁 Otros ingresos", "🎁")]

/-- Models `INSERT OR IGNORE INTO categories ...`: the row is inserted unless a row
with the same `(user_id, name, type)` key already exists (the `UNIQUE`
constraint of the schema). -/
def insert_or_ignore_category (cats : List Category) (c : Category) : List Category :=
  if cats.any (fun d => d.user_id == c.user_id && d.name == c.name && d.type == c.type)
  then cats
  else cats ++ [c]

/-- The function `seed_categories(user_id)`: inserts (or ignores) each default expense
category, then each default income category, for the given user. -/
def seed_categories (user_id : Int) (cats : List Category) : List Category :=
  let cats1 := default_gastos.foldl
    (fun acc p => insert_or_ignore_category acc ⟨user_id, p.1, p.2, TxType.gasto⟩) cats
  default_ingresos.foldl
    (fun acc p => insert_or_ignore_category acc ⟨user_id, p.1, p.2, TxType.ingreso⟩) cats1

/-! ### add_transaction (src/bot.py lines 119-129) -/

/-- The function `add_transaction`: inserts a new transaction row (id from the
AUTOINCREMENT counter, `created_at` the current clock) and, when the sheets
sink is enabled, mirrors the append. -/
def add_transaction (sheets_enabled : Bool) (db : DB) (now : Nat) (user_id : Int)
    (tx_type : TxType) (category : String) (amount : ℚ) (description : String)
    (payment_method : String) (photo_path : Option String) : DB × List Effect :=
  let t : Transaction :=
    ⟨db.next_tx_id, user_id, tx_type, category, amount, description,
     payment_method, photo_path, now⟩
  ({ db with
      transactions := db.transactions ++ [t],
      next_tx_id := db.next_tx_id + 1 },
   if sheets_enabled then
     [Effect.sinkAppend tx_type category amount description payment_method]
   else [])

/-! ### delete_last_transaction (src/bot.py lines 174-189) -/

/-- Ordering used by `ORDER BY created_at DESC LIMIT 1`: the query is served
from the `idx_trans_date` index on `created_at`, whose entries with equal key
are ordered by ascending rowid, so a descending scan yields, among rows with
the maximal `created_at`, the one with the largest id first. -/
def later_than (a b : Transaction) : Bool :=
  a.created_at > b.created_at || (a.created_at == b.created_at && a.id > b.id)

/-- One comparison step of the maximum scan in `select_last`. -/
def select_step (acc : Option Transaction) (t : Transaction) : Option Transaction :=
  match acc with
  | none => some t
  | some b => if later_than t b then some t else some b

/-- The row selected by
`SELECT ... WHERE user_id = ? ORDER BY created_at DESC LIMIT 1`
(applied to the already user-filtered list): the transaction maximal in the
`(created_at, id)` order, or `none` for an empty list. -/
def select_last (txs : List Transaction) : Option Transaction :=
  txs.foldl select_step none

/-- The projection `SELECT id, category, amount, photo_path` returned by
`delete_last_transaction`. -/
structure DeletedRow where
  id : Nat
  category : String
  amount : ℚ
  photo_path : Option String
deriving DecidableEq, Repr

/-- The function `delete_last_transaction(user_id)`: selects the last transaction of the
user; if one exists, deletes it (`DELETE ... WHERE id = ?`), best-effort
removes its photo file, and mirrors the deletion to the sheets sink when
enabled; otherwise returns `none` and does nothing. -/
def delete_last_transaction (sheets_enabled : Bool) (db : DB) (user_id : Int) :
    Option DeletedRow × DB × List Effect :=
  match select_last (db.transactions.filter (fun t => t.user_id == user_id)) with
  | none => (none, db, [])
  | some row =>
    let db' := { db with
      transactions := db.transactions.filter (fun t => !(t.id == row.id)) }
    let photoEffects : List Effect :=
      match row.photo_path with
      | some p => [Effect.deletePhoto p]
      | none => []
    let sinkEffects : List Effect :=
      if sheets_enabled then [Effect.sinkDeleteLast] else []
    (some ⟨row.id, row.category, row.amount, row.photo_path⟩, db',
     photoEffects ++ sinkEffects)

/-! ### apply_recurring_transactions (src/bot.py lines 226-250) -/

/-- The `WHERE` clause of the due-rule query:
`active = 1 AND day_of_month = ? AND (last_applied IS NULL OR last_applied != ?)`. -/
def due_filter (day : Nat) (month_key : String) (r : Rule) : Bool :=
  r.active && r.day_of_month == day &&
    (r.last_applied.isNone || !(r.last_applied == some month_key))

/-- Models `UPDATE recurring SET last_applied = ? WHERE id = ?` applied to one row. -/
def stamp_rule (month_key : String) (rid : Nat) (q : Rule) : Rule :=
  if q.id == rid then { q with last_applied := some month_key } else q

/-- The body of the `for r in rows` loop of `apply_recurring_transactions`:
`INSERT INTO transactions ...` (description prefixed with `[Auto] `, no
photo, payment method taken from the rule) followed by
`UPDATE recurring SET last_applied = ? WHERE id = ?`. -/
def apply_step (now : Nat) (month_key : String) (acc : DB) (r : Rule) : DB :=
  { acc with
    transactions := acc.transactions ++
      [⟨acc.next_tx_id, r.user_id, r.type, r.category, r.amount,
        "[Auto] " ++ r.description, r.payment_method, none, now⟩],
    next_tx_id := acc.next_tx_id + 1,
    recurring := acc.recurring.map (stamp_rule month_key r.id) }

/-- The function `apply_recurring_transactions()`: fetches the due rules for today, and
for each one inserts a transaction and stamps the rule's `last_applied`
with the current month key.  Returns the list of applied rules. -/
def apply_recurring_transactions (db : DB) (now : Nat) (day : Nat)
    (month_key : String) : List Rule × DB :=
  let rows := db.recurring.filter (due_filter day month_key)
  (rows, rows.foldl (apply_step now month_key) db)

/-! ### Session draft (`context.user_data`) and the commit handlers -/

/-- The per-session draft stored in `context.user_data`, one optional slot
per key used by the flows. -/
structure UserData where
  tx_type : Option TxType
  category : Option String
  amount : Option ℚ
  payment_method : Option String
  quick_desc : Option String
  pending_photo : Option String
deriving DecidableEq, Repr

/-- Models `context.user_data.clear()`. -/
def cleared_user_data : UserData := ⟨none, none, none, none, none, none⟩

/-- The handler `_save_transaction` (src/bot.py lines 459-489): commits the guided-flow
draft, each field falling back to its default when absent
(`user_data.get("tx_type", "gasto")`, `.get("category", "🎁 Otros")`,
`.get("amount", 0)`, `.get("payment_method", "Efectivo")`), then clears the
draft. -/
def _save_transaction (sheets_enabled : Bool) (db : DB) (now : Nat) (uid : Int)
    (ud : UserData) (description : String) (photo_path : Option String) :
    DB × List Effect × UserData :=
  let tx_type := ud.tx_type.getD TxType.gasto
  let category := ud.category.getD ("🎁 Otros")
  let amount := ud.amount.getD 0
  let payment := ud.payment_method.getD ("Efectivo")
  let r := add_transaction sheets_enabled db now uid tx_type category amount
    description payment photo_path
  (r.1, r.2, cleared_user_data)

/-- The handler `quick_payment_selected` (src/bot.py lines 622-651): commits the quick
flow draft as an expense (`tx_type` fixed to `gasto`), with defaults
`.get("amount", 0)`, `.get("category", "🎁 Otros")`, `.get("quick_desc", "")`,
popping the pending photo, then clears the draft. -/
def quick_payment_selected (sheets_enabled : Bool) (db : DB) (now : Nat)
    (uid : Int) (ud : UserData) (payment : String) :
    DB × List Effect × UserData :=
  let amount := ud.amount.getD 0
  let category := ud.category.getD ("🎁 Otros")
  let desc := ud.quick_desc.getD ("")
  let photo_path := ud.pending_photo
  let r := add_transaction sheets_enabled db now uid TxType.gasto category amount
    desc payment photo_path
  (r.1, r.2, cleared_user_data)

/-! ### Text processing: strip / replace / float / lower -/

/-- Whitespace for Python `str.strip()` (the characters that occur in chat
text). -/
def is_space (c : Char) : Bool :=
  c == ' ' || c == '\t' || c == '\n' || c == '\r'

/-- Python `text.strip()`. -/
def strip (l : List Char) : List Char :=
  ((l.dropWhile is_space).reverse.dropWhile is_space).reverse

/-- Fueled worker for `remove_sub`; structural in the fuel so that concrete
inputs evaluate in the kernel. -/
def remove_sub_aux (pat : List Char) : Nat → List Char → List Char
  | 0, s => s
  | _ + 1, [] => []
  | fuel + 1, c :: rest =>
    if pat.isPrefixOf (c :: rest) then
      remove_sub_aux pat fuel (List.drop (pat.length - 1) rest)
    else
      c :: remove_sub_aux pat fuel rest

/-- Python `text.replace(pat, "")`: removes every (left-to-right,
non-overlapping) occurrence of `pat`. -/
def remove_sub (pat : List Char) (s : List Char) : List Char :=
  remove_sub_aux pat s.length s

def is_digit (c : Char) : Bool := '0' ≤ c && c ≤ '9'

def digits_to_nat (l : List Char) : Nat :=
  l.foldl (fun acc c => acc * 10 + (c.toNat - 48)) 0

/-- Modelled subset of Python `float(text)`: optional sign, integer digits,
optional decimal point and fraction digits, at least one digit overall,
nothing else.  The exponent / `inf` / `nan` forms of the Python parser are
not used by any flow input and are not modelled. -/
def parse_float (s : List Char) : Option ℚ :=
  let signed : Bool × List Char :=
    match s with
    | '-' :: t => (true, t)
    | '+' :: t => (false, t)
    | t => (false, t)
  let neg := signed.1
  let t := signed.2
  let intPart := t.takeWhile is_digit
  let rest := t.dropWhile is_digit
  let fracPart : Option (List Char) :=
    match rest with
    | [] => some []
    | '.' :: frac => if frac.all is_digit then some frac else none
    | _ => none
  match fracPart with
  | none => none
  | some frac =>
    if intPart.isEmpty && frac.isEmpty then none
    else
      let v : ℚ := (digits_to_nat intPart : ℚ) +
        (digits_to_nat frac : ℚ) / ((10 : ℚ) ^ frac.length)
      some (if neg then -v else v)

/-- Python `str.lower()` on one ASCII character. -/
def lower_char (c : Char) : Char :=
  if 'A' ≤ c && c ≤ 'Z' then Char.ofNat (c.toNat + 32) else c

/-- Python `str.lower()` (ASCII part; the handled tokens are all ASCII). -/
def lower (l : List Char) : List Char := l.map lower_char

/-! ### amount_received (src/bot.py lines 417-433) -/

/-- The conversation states of the guided-entry flow
(`AMOUNT, DESCRIPTION, PAYMENT, PHOTO_WAIT = range(4)` plus
`ConversationHandler.END`). -/
inductive ConvState where
  | AMOUNT
  | PAYMENT
  | DESCRIPTION
  | ENDED
deriving DecidableEq, Repr

/-- The handler `amount_received`: strips the text, removes `","`, `"S/"`, `"s/"`, `"$"`
(in that order), parses a float; a parse failure or a non-positive value
re-prompts and stays in the `AMOUNT` state, otherwise the amount is stored
in the draft and the flow advances to `PAYMENT`. -/
def amount_received (text : String) : Option ℚ × ConvState :=
  let cleaned :=
    remove_sub ['$']
      (remove_sub ['s', '/']
        (remove_sub ['S', '/']
          (remove_sub [','] (strip text.data))))
  match parse_float cleaned with
  | none => (none, ConvState.AMOUNT)
  | some amount =>
    if amount ≤ 0 then (none, ConvState.AMOUNT)
    else (some amount, ConvState.PAYMENT)

/-! ### description_received (src/bot.py lines 447-451) -/

/-- The skip tokens of `description_received`:
`desc.lower() in ("no", "n", "-", "skip", "omitir")`. -/
def skip_tokens : List (List Char) :=
  ["no".data, "n".data, "-".data, "skip".data, "omitir".data]

/-- The description value committed by `description_received`: the stripped
text, normalized to the empty string when its lowercase form is one of the
skip tokens. -/
def description_received (text : String) : String :=
  let desc := strip text.data
  if skip_tokens.contains (lower desc) then ("") else String.mk desc

/-! ### auth_check (src/bot.py lines 266-273) -/

/-- Outcome of the authorization gate: either the wrapped handler runs, or
the fixed denial reply (`⛔ No autorizado.`) is sent and the handler does
not run. -/
inductive AuthResult where
  | handlerInvoked
  | denialReply
deriving DecidableEq, Repr

/-- The gate `auth_check`: `if AUTHORIZED_USERS and uid not in AUTHORIZED_USERS` sends
the denial, otherwise the wrapped handler is invoked.  (Python truthiness of
a set is non-emptiness, so an empty allow-list skips the guard.) -/
def auth_check (authorized_users : List Int) (uid : Int) : AuthResult :=
  if !authorized_users.isEmpty && !(authorized_users.contains uid) then
    AuthResult.denialReply
  else
    AuthResult.handlerInvoked

/-! ### cmd_resumen bar rendering (src/bot.py lines 864-891) -/

/-- Python `int(...)` on a float truncates toward zero. -/
def trunc_q (q : ℚ) : ℤ := if 0 ≤ q then ⌊q⌋ else ⌈q⌉

/-- Models `bar_len = int((row["total"] / bar_max) * 8) if bar_max > 0 else 0`. -/
def bar_len (total bar_max : ℚ) : ℤ :=
  if bar_max > 0 then trunc_q (total / bar_max * 8) else 0

/-- Models `pct = (row["total"] / gastos * 100) if gastos > 0 else 0`. -/
def pct (total gastos : ℚ) : ℚ :=
  if gastos > 0 then total / gastos * 100 else 0

/-- Helper for the recurring-engine proofs: the composite effect of the
whole loop on one pre-existing `recurring` row. -/
def apply_all (month_key : String) (rows : List Rule) (q : Rule) : Rule :=
  rows.foldl (fun x r => stamp_rule month_key r.id x) q

/-! ## Theorems -/

/-! ### Small evaluation lemmas for digit characters -/

theorem toNat_digit0 : ('0').toNat = 48 := rfl
theorem toNat_digit1 : ('1').toNat = 49 := rfl
theorem toNat_digit2 : ('2').toNat = 50 := rfl
theorem toNat_digit4 : ('4').toNat = 52 := rfl
theorem toNat_digit5 : ('5').toNat = 53 := rfl

/-! ### C6: the guided-entry amount step -/

/-- C6: in `amount_received`, input `"150"` yields amount `150.00` and the
flow advances to the payment state; `"1,500.50"` yields `1500.50`;
`"S/45"` and `"$45"` yield `45.00`; while `"-5"`, `"abc"` and `"0"` store
nothing and stay in the amount-collection state (self-loop re-prompt). -/
theorem amount_received_examples :
    amount_received ("150") = (some 150, ConvState.PAYMENT) ∧
    amount_received ("1,500.50") = (some (1500.5 : ℚ), ConvState.PAYMENT) ∧
    amount_received ("S/45") = (some 45, ConvState.PAYMENT) ∧
    amount_received ("$45") = (some 45, ConvState.PAYMENT) ∧
    amount_received ("-5") = (none, ConvState.AMOUNT) ∧
    amount_received ("abc") = (none, ConvState.AMOUNT) ∧
    amount_received ("0") = (none, ConvState.AMOUNT) := by
  refine ⟨?_, ?_, ?_, ?_, ?_, ?_, ?_⟩ <;>
    norm_num +decide [amount_received, parse_float, strip, remove_sub,
      remove_sub_aux, is_space, is_digit, digits_to_nat, List.takeWhile,
      List.dropWhile, toNat_digit0, toNat_digit1, toNat_digit2, toNat_digit4,
      toNat_digit5]

/-! ### C9: the description skip tokens -/

/-- C9 counterexample: the claimed token list is `"no"/"n"/"-"/"skip"/"omit"`,
but the code's final token is the Spanish `"omitir"`: the input `"omit"` is
recorded verbatim instead of normalizing to the empty description, while
`"omitir"` (not in the claimed list) does normalize to empty. -/
theorem description_received_omit_counterexample :
    description_received ("omit") = "omit" ∧ description_received ("omit") ≠ "" ∧
    description_received ("omitir") = "" := by
  refine ⟨?_, ?_, ?_⟩ <;>
    simp +decide [description_received, strip, skip_tokens, lower, lower_char,
      is_space]

/-- C9 amended: exactly the tokens `"no"`, `"n"`, `"-"`, `"skip"` and
`"omitir"` (case-insensitively, after stripping surrounding whitespace)
normalize the description to the empty string; any other text is recorded
stripped of surrounding whitespace (hence verbatim when it has none). -/
theorem description_received_exact_tokens (s : String) :
    (lower (strip s.data) ∈ skip_tokens → description_received s = "") ∧
    (lower (strip s.data) ∉ skip_tokens →
      description_received s = String.mk (strip s.data)) := by
  constructor <;> intro h <;> simp [description_received, h]

/-- Witness for the amended C9 theorem at concrete inputs. -/
theorem description_received_exact_tokens_witness :
    lower (strip ("  OMITIR ").data) ∈ skip_tokens ∧
    description_received ("  OMITIR ") = "" ∧
    lower (strip ("almuerzo").data) ∉ skip_tokens ∧
    description_received ("almuerzo") = String.mk (strip ("almuerzo").data) :=
  ⟨by decide, (description_received_exact_tokens ("  OMITIR ")).1 (by decide),
   by decide, (description_received_exact_tokens ("almuerzo")).2 (by decide)⟩

/-! ### C10: the authorization gate -/

/-- C10: when the configured allow-list is empty, `auth_check` invokes the
wrapped handler for every user (an empty allow-list admits everyone), and
the denial reply is sent exactly when the allow-list is non-empty and does
not contain the user. -/
theorem auth_check_empty_allows_all :
    (∀ uid : Int, auth_check [] uid = AuthResult.handlerInvoked) ∧
    (∀ (authorized_users : List Int) (uid : Int),
      auth_check authorized_users uid = AuthResult.denialReply ↔
        (authorized_users ≠ [] ∧ uid ∉ authorized_users)) := by
  constructor
  · intro uid
    simp [auth_check]
  · intro au uid
    by_cases hne : au = []
    · subst hne
      simp [auth_check]
    · by_cases hm : uid ∈ au
      · simp [auth_check, hne, hm]
      · simp [auth_check, hne, hm]

/-! ### C5: bar-chart rendering -/

/-- C5 counterexample: the code computes `int((total / bar_max) * 8)`, which
truncates; at totals 99 and 100 it renders 7 blocks while the claimed
`round(total/maxCategoryTotal × 8)` is 8. -/
theorem bar_len_not_round_counterexample :
    bar_len 99 100 = 7 ∧ round (((99 : ℚ) / 100) * 8) = 8 ∧
    bar_len 99 100 ≠ round (((99 : ℚ) / 100) * 8) := by
  refine ⟨?_, ?_, ?_⟩
  · norm_num [bar_len, trunc_q]
  · rw [round_eq]; norm_num
  · norm_num [bar_len, trunc_q]
    rw [round_eq]; norm_num

/-- C5 amended: the rendered bar length is `⌊total/maxCategoryTotal × 8⌋`
(truncation, as Python `int`, not rounding to nearest), which lies in
`[0, 8]` for `0 ≤ total ≤ maxCategoryTotal`; the example totals
`{A:100, B:50, C:25}` with max 100 give lengths 8, 4, 2; and the displayed
percentage equals `total/overallExpenseTotal × 100`, displayed as 0 when
the overall expense total is 0. -/
theorem bar_len_floor_spec (total m : ℚ) (h0 : 0 ≤ total) (hm : total ≤ m)
    (hpos : 0 < m) :
    bar_len total m = ⌊total / m * 8⌋ ∧
    0 ≤ bar_len total m ∧ bar_len total m ≤ 8 ∧
    bar_len 100 100 = 8 ∧ bar_len 50 100 = 4 ∧ bar_len 25 100 = 2 ∧
    (∀ t : ℚ, pct t 0 = 0) ∧
    (∀ t g : ℚ, 0 < g → pct t g = t / g * 100) := by
  have hq0 : 0 ≤ total / m * 8 := by positivity
  have hq8 : total / m * 8 ≤ 8 := by
    have h1 : total / m ≤ 1 := (div_le_one hpos).mpr hm
    nlinarith
  have hbar : bar_len total m = ⌊total / m * 8⌋ := by
    simp [bar_len, trunc_q, hpos, hq0]
  refine ⟨hbar, ?_, ?_, ?_, ?_, ?_, ?_, ?_⟩
  · rw [hbar]
    exact Int.floor_nonneg.mpr hq0
  · rw [hbar]
    calc ⌊total / m * 8⌋ ≤ ⌊(8 : ℚ)⌋ := Int.floor_le_floor hq8
    _ = 8 := by norm_num
  · norm_num [bar_len, trunc_q]
  · norm_num [bar_len, trunc_q]
  · norm_num [bar_len, trunc_q]
  · intro t
    simp [pct]
  · intro t g hg
    simp [pct, hg]

/-- Witness for the amended C5 theorem at totals 25 and 100. -/
theorem bar_len_floor_spec_witness :
    (0 : ℚ) ≤ 25 ∧ (25 : ℚ) ≤ 100 ∧ (0 : ℚ) < 100 ∧
    (bar_len 25 100 = ⌊(25 : ℚ) / 100 * 8⌋ ∧
      0 ≤ bar_len 25 100 ∧ bar_len 25 100 ≤ 8 ∧
      bar_len 100 100 = 8 ∧ bar_len 50 100 = 4 ∧ bar_len 25 100 = 2 ∧
      (∀ t : ℚ, pct t 0 = 0) ∧
      (∀ t g : ℚ, 0 < g → pct t g = t / g * 100)) :=
  ⟨by norm_num, by norm_num, by norm_num,
   bar_len_floor_spec 25 100 (by norm_num) (by norm_num) (by norm_num)⟩

/-! ### Order lemmas for `later_than` and `select_last` -/

theorem later_than_iff (a b : Transaction) :
    later_than a b = true ↔
      b.created_at < a.created_at ∨
        (b.created_at = a.created_at ∧ b.id < a.id) := by
  simp only [later_than, Bool.or_eq_true, Bool.and_eq_true, decide_eq_true_eq,
    beq_iff_eq, gt_iff_lt]
  omega

theorem later_than_false_iff (a b : Transaction) :
    later_than a b = false ↔
      a.created_at < b.created_at ∨
        (a.created_at = b.created_at ∧ a.id ≤ b.id) := by
  rw [← Bool.not_eq_true, later_than_iff]
  omega

theorem later_than_irrefl (a : Transaction) : later_than a a = false := by
  rw [later_than_false_iff]
  omega

theorem later_than_asymm {a b : Transaction} (h : later_than a b = true) :
    later_than b a = false := by
  rw [later_than_iff] at h
  rw [later_than_false_iff]
  omega

theorem not_later_trans {a b c : Transaction} (h1 : later_than a b = false)
    (h2 : later_than b c = false) : later_than a c = false := by
  rw [later_than_false_iff] at h1 h2 ⊢
  omega

/-- Appending a transaction strictly later than everything in the list makes
it the selected row. -/
theorem select_last_append_aux (t : Transaction) :
    ∀ (l : List Transaction) (acc : Option Transaction),
      (∀ b ∈ l, later_than t b = true) →
      (∀ b, acc = some b → later_than t b = true) →
      (l ++ [t]).foldl select_step acc = some t := by
  intro l
  induction l with
  | nil =>
    intro acc _ hacc
    match acc with
    | none => rfl
    | some b =>
      simp [select_step, List.foldl, hacc b rfl]
  | cons x xs ih =>
    intro acc h hacc
    have hx : later_than t x = true := h x (List.mem_cons_self x xs)
    show (xs ++ [t]).foldl select_step (select_step acc x) = some t
    refine ih (select_step acc x) (fun b hb => h b (List.mem_cons_of_mem x hb)) ?_
    intro b hb
    match acc with
    | none =>
      simp only [select_step] at hb
      exact (Option.some_inj.mp hb) ▸ hx
    | some c =>
      simp only [select_step] at hb
      split at hb
      · exact (Option.some_inj.mp hb) ▸ hx
      · exact (Option.some_inj.mp hb) ▸ hacc c rfl

theorem select_last_append_last (l : List Transaction) (t : Transaction)
    (h : ∀ b ∈ l, later_than t b = true) :
    select_last (l ++ [t]) = some t :=
  select_last_append_aux t l none h (by intro b hb; cases hb)

/-- The fold underlying `select_last` returns an element of the scanned list
(or the start accumulator) that no scanned element is later than. -/
theorem select_last_spec_aux :
    ∀ (l : List Transaction) (acc : Option Transaction) (t : Transaction),
      l.foldl select_step acc = some t →
      (t ∈ l ∨ acc = some t) ∧
      (∀ b ∈ l, later_than b t = false) ∧
      (∀ a, acc = some a → later_than a t = false) := by
  intro l
  induction l with
  | nil =>
    intro acc t h
    refine ⟨Or.inr h, ?_, ?_⟩
    · intro b hb; cases hb
    · intro a ha
      have ht : acc = some t := h
      rw [ht] at ha
      obtain rfl : t = a := Option.some_inj.mp ha
      exact later_than_irrefl t
  | cons x xs ih =>
    intro acc t h
    have h' : xs.foldl select_step (select_step acc x) = some t := h
    obtain ⟨hmem, hall, hacc⟩ := ih (select_step acc x) t h'
    have hstepx : ∀ w, select_step acc x = some w → later_than x w = false := by
      intro w hw
      match acc with
      | none =>
        simp only [select_step] at hw
        exact (Option.some_inj.mp hw) ▸ later_than_irrefl x
      | some c =>
        simp only [select_step] at hw
        split at hw
        · exact (Option.some_inj.mp hw) ▸ later_than_irrefl x
        · rename_i hcond
          exact (Option.some_inj.mp hw) ▸ Bool.of_not_eq_true hcond
    refine ⟨?_, ?_, ?_⟩
    · rcases hmem with hm | hm
      · exact Or.inl (List.mem_cons_of_mem x hm)
      · match acc with
        | none =>
          simp only [select_step] at hm
          exact Or.inl ((Option.some_inj.mp hm) ▸ List.mem_cons_self x xs)
        | some c =>
          simp only [select_step] at hm
          split at hm
          · exact Or.inl ((Option.some_inj.mp hm) ▸ List.mem_cons_self x xs)
          · exact Or.inr hm
    · intro b hb
      rcases List.mem_cons.mp hb with rfl | hbxs
      · rcases hw : select_step acc b with _ | w
        · match acc with
          | none => simp [select_step] at hw
          | some c => simp only [select_step] at hw; split at hw <;> cases hw
        · exact not_later_trans (hstepx w hw) (hacc w hw)
      · exact hall b hbxs
    · intro a ha
      subst ha
      rcases hw : select_step (some a) x with _ | w
      · simp only [select_step] at hw
        split at hw <;> cases hw
      · have haw : later_than a w = false := by
          simp only [select_step] at hw
          split at hw
          · rename_i hcond
            exact (Option.some_inj.mp hw) ▸ later_than_asymm hcond
          · exact (Option.some_inj.mp hw) ▸ later_than_irrefl a
        exact not_later_trans haw (hacc w hw)

theorem select_last_spec (l : List Transaction) (t : Transaction)
    (h : select_last l = some t) :
    t ∈ l ∧ ∀ b ∈ l, later_than b t = false := by
  obtain ⟨hm, hall, _⟩ := select_last_spec_aux l none t h
  refine ⟨?_, hall⟩
  rcases hm with hm | hm
  · exact hm
  · cases hm

theorem select_last_isSome_aux :
    ∀ (l : List Transaction) (a : Transaction),
      ∃ t, l.foldl select_step (some a) = some t := by
  intro l
  induction l with
  | nil => exact fun a => ⟨a, rfl⟩
  | cons x xs ih =>
    intro a
    show ∃ t, xs.foldl select_step (select_step (some a) x) = some t
    simp only [select_step]
    split
    · exact ih x
    · exact ih a

theorem select_last_isSome (l : List Transaction) (h : l ≠ []) :
    ∃ t, select_last l = some t := by
  match l with
  | [] => exact absurd rfl h
  | x :: xs => exact select_last_isSome_aux xs x

/-! ### C7: category seeding -/

/-- C7: for every new user (empty catalog), the first run of
`seed_categories` creates exactly 10 expense categories and 5 income
categories, and a second run creates no additional categories
(insert-if-absent under the `(user, name, kind)` uniqueness key): the
catalog after two runs equals the catalog after one. -/
theorem seed_categories_counts_and_idempotent (u : Int) :
    ((seed_categories u []).filter (fun c => c.type == TxType.gasto)).length = 10 ∧
    ((seed_categories u []).filter (fun c => c.type == TxType.ingreso)).length = 5 ∧
    seed_categories u (seed_categories u []) = seed_categories u [] := by
  refine ⟨?_, ?_, ?_⟩ <;>
    simp +decide [seed_categories, insert_or_ignore_category, default_gastos,
      default_ingresos]

/-! ### C8: delete-last on an empty ledger -/

/-- C8: for a user with zero transactions, `delete_last_transaction` returns
`none`, leaves the transactions table unchanged, and emits no photo deletion
and no sink notification. -/
theorem delete_last_empty_no_mutation (sheets_enabled : Bool) (db : DB)
    (uid : Int)
    (h : db.transactions.filter (fun t => t.user_id == uid) = []) :
    delete_last_transaction sheets_enabled db uid = (none, db, []) := by
  simp only [delete_last_transaction, h]
  rfl

/-- Witness for C8: a ledger holding only another user's transaction. -/
theorem delete_last_empty_no_mutation_witness :
    (DB.mk [⟨1, 5, TxType.gasto, "🍽️ Comida", 10, "", "Efectivo", none, 0⟩] 2
        []).transactions.filter (fun t => t.user_id == (7 : Int)) = [] ∧
    delete_last_transaction true
        (DB.mk [⟨1, 5, TxType.gasto, "🍽️ Comida", 10, "", "Efectivo", none, 0⟩] 2
          []) 7 =
      (none,
       DB.mk [⟨1, 5, TxType.gasto, "🍽️ Comida", 10, "", "Efectivo", none, 0⟩] 2
         [],
       []) :=
  ⟨by decide,
   delete_last_empty_no_mutation true
     (DB.mk [⟨1, 5, TxType.gasto, "🍽️ Comida", 10, "", "Efectivo", none, 0⟩] 2 [])
     7 (by decide)⟩

/-! ### C2: commit then delete-last round trip -/

/-- C2: for a user with at least one transaction and a valid
`(kind, category, amount > 0)` triple, committing via `add_transaction` and
then calling `delete_last_transaction` for the same user returns exactly the
committed row and restores the transactions table to its prior state.  The
reachable-state hypotheses say that existing ids are below the AUTOINCREMENT
counter and existing creation timestamps do not exceed the commit clock. -/
theorem commit_then_delete_roundtrip (sheets_enabled : Bool) (db : DB)
    (now : Nat) (uid : Int) (k : TxType) (cat : String) (a : ℚ)
    (d pm : String) (photo : Option String)
    (hpos : 0 < a)
    (hex : ∃ t ∈ db.transactions, t.user_id = uid)
    (hid : ∀ t ∈ db.transactions, t.id < db.next_tx_id)
    (hclock : ∀ t ∈ db.transactions, t.created_at ≤ now) :
    (delete_last_transaction sheets_enabled
        (add_transaction sheets_enabled db now uid k cat a d pm photo).1 uid).1 =
      some ⟨db.next_tx_id, cat, a, photo⟩ ∧
    (delete_last_transaction sheets_enabled
        (add_transaction sheets_enabled db now uid k cat a d pm photo).1
        uid).2.1.transactions = db.transactions := by
  set t0 : Transaction :=
    ⟨db.next_tx_id, uid, k, cat, a, d, pm, photo, now⟩ with ht0
  have hdb1 : (add_transaction sheets_enabled db now uid k cat a d pm photo).1 =
      { db with transactions := db.transactions ++ [t0],
                next_tx_id := db.next_tx_id + 1 } := rfl
  have hfilter : (db.transactions ++ [t0]).filter (fun t => t.user_id == uid) =
      db.transactions.filter (fun t => t.user_id == uid) ++ [t0] := by
    simp [List.filter_append, ht0]
  have hwin : ∀ b ∈ db.transactions.filter (fun t => t.user_id == uid),
      later_than t0 b = true := by
    intro b hb
    have hbmem : b ∈ db.transactions := (List.mem_filter.mp hb).1
    have h1 := hid b hbmem
    have h2 := hclock b hbmem
    rw [later_than_iff]
    simp only [ht0]
    omega
  have hsel : select_last
      ((add_transaction sheets_enabled db now uid k cat a d pm
        photo).1.transactions.filter (fun t => t.user_id == uid)) = some t0 := by
    rw [hdb1]
    show select_last
      ((db.transactions ++ [t0]).filter (fun t => t.user_id == uid)) = some t0
    rw [hfilter]
    exact select_last_append_last _ t0 hwin
  have hclean : ((db.transactions ++ [t0]).filter
      (fun t => !(t.id == t0.id))) = db.transactions := by
    rw [List.filter_append]
    have h1 : db.transactions.filter (fun t => !(t.id == t0.id)) =
        db.transactions := by
      apply List.filter_eq_self.mpr
      intro b hb
      have := hid b hb
      simp only [ht0, Bool.not_eq_true']
      simp only [beq_eq_false_iff_ne, ne_eq]
      omega
    have h2 : ([t0].filter (fun t => !(t.id == t0.id))) = [] := by
      simp
    rw [h1, h2, List.append_nil]
  constructor
  · simp only [delete_last_transaction, hsel, ht0]
  · simp only [delete_last_transaction, hsel]
    exact hclean

/-- Witness for C2 on a one-transaction ledger. -/
theorem commit_then_delete_roundtrip_witness :
    (0 : ℚ) < 45 ∧
    (∃ t ∈ (DB.mk [⟨1, 7, TxType.gasto, "🚗 Transporte", 12, "", "Yape", none,
        100⟩] 2 []).transactions, t.user_id = (7 : Int)) ∧
    ((delete_last_transaction false
        (add_transaction false
          (DB.mk [⟨1, 7, TxType.gasto, "🚗 Transporte", 12, "", "Yape", none,
            100⟩] 2 [])
          100 7 TxType.gasto ("🍽️ Comida") 45 ("almuerzo") "Efectivo" none).1 7).1 =
      some ⟨2, "🍽️ Comida", 45, none⟩ ∧
    (delete_last_transaction false
        (add_transaction false
          (DB.mk [⟨1, 7, TxType.gasto, "🚗 Transporte", 12, "", "Yape", none,
            100⟩] 2 [])
          100 7 TxType.gasto ("🍽️ Comida") 45 ("almuerzo") "Efectivo" none).1
        7).2.1.transactions =
      [⟨1, 7, TxType.gasto, "🚗 Transporte", 12, "", "Yape", none, 100⟩]) :=
  ⟨by norm_num,
   ⟨⟨1, 7, TxType.gasto, "🚗 Transporte", 12, "", "Yape", none, 100⟩,
     List.mem_singleton.mpr rfl, rfl⟩,
   commit_then_delete_roundtrip false
     (DB.mk [⟨1, 7, TxType.gasto, "🚗 Transporte", 12, "", "Yape", none, 100⟩] 2
       [])
     100 7 TxType.gasto ("🍽️ Comida") 45 ("almuerzo") "Efectivo" none
     (by norm_num)
     ⟨⟨1, 7, TxType.gasto, "🚗 Transporte", 12, "", "Yape", none, 100⟩,
       List.mem_singleton.mpr rfl, rfl⟩
     (by intro t ht; rw [List.mem_singleton.mp ht]; simp)
     (by intro t ht; rw [List.mem_singleton.mp ht])⟩

/-! ### C3: delete-last removes the latest transaction -/

/-- C3: for a user with at least one transaction,
`delete_last_transaction` removes the most recently created transaction of
that user — among transactions sharing the maximal creation timestamp, the
one with the largest id — returning its `(id, category, amount, photo_path)`
projection and deleting exactly the rows with that id. -/
theorem delete_last_removes_latest (sheets_enabled : Bool) (db : DB) (uid : Int)
    (h : db.transactions.filter (fun t => t.user_id == uid) ≠ []) :
    ∃ t, t ∈ db.transactions ∧ t.user_id = uid ∧
      (∀ b ∈ db.transactions, b.user_id = uid →
        b.created_at < t.created_at ∨
          (b.created_at = t.created_at ∧ b.id ≤ t.id)) ∧
      (delete_last_transaction sheets_enabled db uid).1 =
        some ⟨t.id, t.category, t.amount, t.photo_path⟩ ∧
      (delete_last_transaction sheets_enabled db uid).2.1.transactions =
        db.transactions.filter (fun x => !(x.id == t.id)) := by
  obtain ⟨t, hsel⟩ :=
    select_last_isSome (db.transactions.filter (fun t => t.user_id == uid)) h
  obtain ⟨htmem, hmax⟩ := select_last_spec _ t hsel
  have htdb : t ∈ db.transactions := (List.mem_filter.mp htmem).1
  have htuid : t.user_id = uid := by
    have := (List.mem_filter.mp htmem).2
    simpa using this
  refine ⟨t, htdb, htuid, ?_, ?_, ?_⟩
  · intro b hb hbud
    have hbf : b ∈ db.transactions.filter (fun t => t.user_id == uid) := by
      rw [List.mem_filter]
      exact ⟨hb, by simp [hbud]⟩
    have := hmax b hbf
    rw [later_than_false_iff] at this
    omega
  · simp only [delete_last_transaction, hsel]
  · simp only [delete_last_transaction, hsel]

/-- Witness for C3: two transactions of user 7 with equal timestamps; the
one with the larger id is the one selected for deletion. -/
theorem delete_last_removes_latest_witness :
    (DB.mk
        [⟨1, 7, TxType.gasto, "🏠 Vivienda", 10, "", "Efectivo", none, 100⟩,
         ⟨2, 7, TxType.gasto, "🏥 Salud", 20, "", "Yape", none, 100⟩] 3
        []).transactions.filter (fun t => t.user_id == (7 : Int)) ≠ [] ∧
    ∃ t, t ∈ (DB.mk
        [⟨1, 7, TxType.gasto, "🏠 Vivienda", 10, "", "Efectivo", none, 100⟩,
         ⟨2, 7, TxType.gasto, "🏥 Salud", 20, "", "Yape", none, 100⟩] 3
        []).transactions ∧ t.user_id = (7 : Int) ∧
      (∀ b ∈ (DB.mk
          [⟨1, 7, TxType.gasto, "🏠 Vivienda", 10, "", "Efectivo", none, 100⟩,
           ⟨2, 7, TxType.gasto, "🏥 Salud", 20, "", "Yape", none, 100⟩] 3
          []).transactions, b.user_id = (7 : Int) →
        b.created_at < t.created_at ∨
          (b.created_at = t.created_at ∧ b.id ≤ t.id)) ∧
      (delete_last_transaction false (DB.mk
          [⟨1, 7, TxType.gasto, "🏠 Vivienda", 10, "", "Efectivo", none, 100⟩,
           ⟨2, 7, TxType.gasto, "🏥 Salud", 20, "", "Yape", none, 100⟩] 3
          []) 7).1 =
        some ⟨t.id, t.category, t.amount, t.photo_path⟩ ∧
      (delete_last_transaction false (DB.mk
          [⟨1, 7, TxType.gasto, "🏠 Vivienda", 10, "", "Efectivo", none, 100⟩,
           ⟨2, 7, TxType.gasto, "🏥 Salud", 20, "", "Yape", none, 100⟩] 3
          []) 7).2.1.transactions =
        (DB.mk
          [⟨1, 7, TxType.gasto, "🏠 Vivienda", 10, "", "Efectivo", none, 100⟩,
           ⟨2, 7, TxType.gasto, "🏥 Salud", 20, "", "Yape", none, 100⟩] 3
          []).transactions.filter (fun x => !(x.id == t.id)) :=
  ⟨by decide,
   delete_last_removes_latest false
     (DB.mk
       [⟨1, 7, TxType.gasto, "🏠 Vivienda", 10, "", "Efectivo", none, 100⟩,
        ⟨2, 7, TxType.gasto, "🏥 Salud", 20, "", "Yape", none, 100⟩] 3 [])
     7 (by decide)⟩

/-! ### C1: idempotence of the recurring engine -/

theorem due_filter_iff (day : Nat) (month_key : String) (r : Rule) :
    due_filter day month_key r = true ↔
      r.active = true ∧ r.day_of_month = day ∧
        r.last_applied ≠ some month_key := by
  cases h : r.last_applied <;>
    simp [due_filter, h, and_assoc]

theorem stamp_rule_fields (month_key : String) (rid : Nat) (q : Rule) :
    (stamp_rule month_key rid q).id = q.id ∧
    (stamp_rule month_key rid q).active = q.active ∧
    (stamp_rule month_key rid q).day_of_month = q.day_of_month := by
  simp only [stamp_rule]
  split <;> simp

theorem stamp_rule_last (month_key : String) (rid : Nat) (q : Rule) :
    (stamp_rule month_key rid q).last_applied = q.last_applied ∨
    (stamp_rule month_key rid q).last_applied = some month_key := by
  simp only [stamp_rule]
  split
  · exact Or.inr rfl
  · exact Or.inl rfl

/-- The `recurring` component of the loop is the fold of the per-step map. -/
theorem foldl_apply_step_recurring (now : Nat) (month_key : String) :
    ∀ (rows : List Rule) (db : DB),
      (rows.foldl (apply_step now month_key) db).recurring =
        rows.foldl (fun l r => l.map (stamp_rule month_key r.id)) db.recurring := by
  intro rows
  induction rows with
  | nil => intro db; rfl
  | cons r rs ih =>
    intro db
    show (rs.foldl (apply_step now month_key) (apply_step now month_key db r)).recurring = _
    rw [ih]
    rfl

/-- Folding per-rule maps over a list equals mapping the composite stamping
function over it. -/
theorem foldl_map_stamp (month_key : String) :
    ∀ (rows : List Rule) (l : List Rule),
      rows.foldl (fun l r => l.map (stamp_rule month_key r.id)) l =
        l.map (apply_all month_key rows) := by
  intro rows
  induction rows with
  | nil => intro l; exact (List.map_id l).symm
  | cons r rs ih =>
    intro l
    show rs.foldl _ (l.map (stamp_rule month_key r.id)) = _
    rw [ih, List.map_map]
    rfl

theorem apply_all_fields (month_key : String) :
    ∀ (rows : List Rule) (q : Rule),
      (apply_all month_key rows q).id = q.id ∧
      (apply_all month_key rows q).active = q.active ∧
      (apply_all month_key rows q).day_of_month = q.day_of_month := by
  intro rows
  induction rows with
  | nil => intro q; exact ⟨rfl, rfl, rfl⟩
  | cons r rs ih =>
    intro q
    have h1 := ih (stamp_rule month_key r.id q)
    have h2 := stamp_rule_fields month_key r.id q
    exact ⟨h1.1.trans h2.1, h1.2.1.trans h2.2.1, h1.2.2.trans h2.2.2⟩

theorem apply_all_last (month_key : String) :
    ∀ (rows : List Rule) (q : Rule),
      (apply_all month_key rows q).last_applied = q.last_applied ∨
      (apply_all month_key rows q).last_applied = some month_key := by
  intro rows
  induction rows with
  | nil => intro q; exact Or.inl rfl
  | cons r rs ih =>
    intro q
    rcases ih (stamp_rule month_key r.id q) with h | h
    · rcases stamp_rule_last month_key r.id q with h2 | h2
      · exact Or.inl (h.trans h2)
      · exact Or.inr (h.trans h2)
    · exact Or.inr h

theorem apply_all_keeps_stamp (month_key : String) :
    ∀ (rows : List Rule) (q : Rule),
      q.last_applied = some month_key →
      (apply_all month_key rows q).last_applied = some month_key := by
  intro rows
  induction rows with
  | nil => intro q hq; exact hq
  | cons r rs ih =>
    intro q hq
    refine ih (stamp_rule month_key r.id q) ?_
    simp only [stamp_rule]
    split
    · rfl
    · exact hq

theorem apply_all_stamps (month_key : String) :
    ∀ (rows : List Rule) (r q : Rule), r ∈ rows → q.id = r.id →
      (apply_all month_key rows q).last_applied = some month_key := by
  intro rows
  induction rows with
  | nil => intro r q hr; cases hr
  | cons x xs ih =>
    intro r q hr hid
    rcases List.mem_cons.mp hr with rfl | hrxs
    · refine apply_all_keeps_stamp month_key xs (stamp_rule month_key r.id q) ?_
      simp [stamp_rule, hid]
    · refine ih r (stamp_rule month_key x.id q) hrxs ?_
      exact ((stamp_rule_fields month_key x.id q).1).trans hid

/-- C1: running `apply_recurring_transactions` a second time on the same
calendar day (same day-of-month and month key) materializes no additional
transactions and changes nothing: after the first run every active rule due
that day carries the current month-stamp, so the second run returns the
empty list and the untouched database. -/
theorem apply_recurring_idempotent (db : DB) (now now2 day : Nat)
    (month_key : String) :
    apply_recurring_transactions
        ((apply_recurring_transactions db now day month_key).2) now2 day
        month_key =
      ([], (apply_recurring_transactions db now day month_key).2) := by
  set db1 := (apply_recurring_transactions db now day month_key).2 with hdb1
  have hrec : db1.recurring =
      db.recurring.map
        (apply_all month_key (db.recurring.filter (due_filter day month_key))) := by
    rw [hdb1]
    show ((db.recurring.filter (due_filter day month_key)).foldl
      (apply_step now month_key) db).recurring = _
    rw [foldl_apply_step_recurring, foldl_map_stamp]
  have hnil : db1.recurring.filter (due_filter day month_key) = [] := by
    rw [hrec]
    refine List.filter_eq_nil_iff.mpr ?_
    intro x hx hdue
    obtain ⟨q, hq, rfl⟩ := List.mem_map.mp hx
    rw [due_filter_iff] at hdue
    obtain ⟨hact, hday, hlast⟩ := hdue
    have hfields := apply_all_fields month_key
      (db.recurring.filter (due_filter day month_key)) q
    by_cases hqdue : due_filter day month_key q = true
    · have hqmem : q ∈ db.recurring.filter (due_filter day month_key) :=
        List.mem_filter.mpr ⟨hq, hqdue⟩
      exact hlast (apply_all_stamps month_key _ q q hqmem rfl)
    · rw [due_filter_iff] at hqdue
      push_neg at hqdue
      have hqact : q.active = true := hfields.2.1 ▸ hact
      have hqday : q.day_of_month = day := hfields.2.2 ▸ hday
      have hqlast : q.last_applied = some month_key := hqdue hqact hqday
      exact hlast (apply_all_keeps_stamp month_key _ q hqlast)
  show apply_recurring_transactions db1 now2 day month_key = ([], db1)
  simp only [apply_recurring_transactions, hnil, List.foldl_nil]

/-! ### C4: the amount-positivity / kind invariant -/

theorem txtype_cases (k : TxType) : k = TxType.gasto ∨ k = TxType.ingreso := by
  cases k
  · exact Or.inl rfl
  · exact Or.inr rfl

/-- C4 counterexample: a commit reached with an incomplete (cleared) session
draft falls back to the default amount `0` (`user_data.get("amount", 0)`),
so the created row violates `amount > 0` — the schema has no CHECK on
`amount`, only on `type`. -/
theorem save_transaction_zero_amount_counterexample :
    (_save_transaction false (DB.mk [] 1 []) 0 7 cleared_user_data ("")
        none).1.transactions =
      [⟨1, 7, TxType.gasto, "🎁 Otros", 0, "", "Efectivo", none, 0⟩] ∧
    ∃ t ∈ (_save_transaction false (DB.mk [] 1 []) 0 7 cleared_user_data ("")
        none).1.transactions, ¬ (0 < t.amount) := by
  refine ⟨rfl, ⟨1, 7, TxType.gasto, "🎁 Otros", 0, "", "Efectivo", none, 0⟩,
    List.mem_singleton.mpr rfl, ?_⟩
  norm_num

theorem foldl_apply_step_transactions (now : Nat) (month_key : String) :
    ∀ (rows : List Rule) (db : DB),
      ∀ t ∈ (rows.foldl (apply_step now month_key) db).transactions,
        t ∈ db.transactions ∨ ∃ r ∈ rows, t.amount = r.amount ∧ t.type = r.type := by
  intro rows
  induction rows with
  | nil => intro db t ht; exact Or.inl ht
  | cons r rs ih =>
    intro db t ht
    have ht' : t ∈ (rs.foldl (apply_step now month_key)
        (apply_step now month_key db r)).transactions := ht
    rcases ih (apply_step now month_key db r) t ht' with hmem | ⟨r', hr', hfields⟩
    · have : t ∈ db.transactions ++
          [⟨db.next_tx_id, r.user_id, r.type, r.category, r.amount,
            "[Auto] " ++ r.description, r.payment_method, none, now⟩] := hmem
      rcases List.mem_append.mp this with h | h
      · exact Or.inl h
      · refine Or.inr ⟨r, List.mem_cons_self r rs, ?_, ?_⟩
        · rw [List.mem_singleton.mp h]
        · rw [List.mem_singleton.mp h]
    · exact Or.inr ⟨r', List.mem_cons_of_mem r hr', hfields⟩

/-- C4 amended: every transaction row created by any operation has its kind
in the two-value enumeration; amount positivity holds for guided and quick
commits whose draft amount is present and positive (which the validated
amount-parsing step guarantees: any accepted amount is positive), and for
recurring materializations of rules with positive amount — but not, as the
counterexample shows, for a commit whose draft lacks the amount and falls
back to the default 0. -/
theorem transaction_invariants_amended :
    (∀ (sheets_enabled : Bool) (db : DB) (now : Nat) (uid : Int)
        (ud : UserData) (d : String) (photo : Option String) (a : ℚ),
      ud.amount = some a → 0 < a →
      ∀ t ∈ (_save_transaction sheets_enabled db now uid ud d
          photo).1.transactions,
        t ∈ db.transactions ∨
          (0 < t.amount ∧ (t.type = TxType.gasto ∨ t.type = TxType.ingreso))) ∧
    (∀ (sheets_enabled : Bool) (db : DB) (now : Nat) (uid : Int)
        (ud : UserData) (pay : String) (a : ℚ),
      ud.amount = some a → 0 < a →
      ∀ t ∈ (quick_payment_selected sheets_enabled db now uid ud
          pay).1.transactions,
        t ∈ db.transactions ∨ (0 < t.amount ∧ t.type = TxType.gasto)) ∧
    (∀ (db : DB) (now day : Nat) (month_key : String),
      (∀ r ∈ db.recurring, 0 < r.amount) →
      ∀ t ∈ (apply_recurring_transactions db now day month_key).2.transactions,
        t ∈ db.transactions ∨
          (0 < t.amount ∧ (t.type = TxType.gasto ∨ t.type = TxType.ingreso))) ∧
    (∀ (s : String) (q : ℚ) (st : ConvState),
      amount_received s = (some q, st) → 0 < q) := by
  refine ⟨?_, ?_, ?_, ?_⟩
  · intro sheets db now uid ud d photo a ha hpos t ht
    have ht' : t ∈ db.transactions ++
        [⟨db.next_tx_id, uid, ud.tx_type.getD TxType.gasto,
          ud.category.getD ("🎁 Otros"), ud.amount.getD 0, d,
          ud.payment_method.getD ("Efectivo"), photo, now⟩] := ht
    rcases List.mem_append.mp ht' with h | h
    · exact Or.inl h
    · refine Or.inr ?_
      rw [List.mem_singleton.mp h]
      refine ⟨?_, txtype_cases _⟩
      rw [ha]
      exact hpos
  · intro sheets db now uid ud pay a ha hpos t ht
    have ht' : t ∈ db.transactions ++
        [⟨db.next_tx_id, uid, TxType.gasto, ud.category.getD ("🎁 Otros"),
          ud.amount.getD 0, ud.quick_desc.getD (""), pay, ud.pending_photo,
          now⟩] := ht
    rcases List.mem_append.mp ht' with h | h
    · exact Or.inl h
    · refine Or.inr ?_
      rw [List.mem_singleton.mp h]
      refine ⟨?_, rfl⟩
      rw [ha]
      exact hpos
  · intro db now day month_key hr t ht
    have ht' : t ∈ ((db.recurring.filter (due_filter day month_key)).foldl
        (apply_step now month_key) db).transactions := ht
    rcases foldl_apply_step_transactions now month_key _ db t ht' with
      h | ⟨r, hrmem, hamt, htype⟩
    · exact Or.inl h
    · refine Or.inr ⟨?_, ?_⟩
      · rw [hamt]
        exact hr r (List.mem_of_mem_filter hrmem)
      · exact txtype_cases t.type
  · intro s q st h
    simp only [amount_received] at h
    rcases hp : parse_float (remove_sub ['$'] (remove_sub ['s', '/']
        (remove_sub ['S', '/'] (remove_sub [','] (strip s.data))))) with _ | v
    · rw [hp] at h
      simp at h
    · rw [hp] at h
      have h' : (if v ≤ 0 then ((none : Option ℚ), ConvState.AMOUNT)
          else (some v, ConvState.PAYMENT)) = (some q, st) := h
      by_cases hv : v ≤ 0
      · rw [if_pos hv] at h'
        simp at h'
      · rw [if_neg hv] at h'
        have h1 : some v = some q := congrArg Prod.fst h'
        exact (Option.some_inj.mp h1) ▸ (not_le.mp hv)

/-- Witness for the amended C4 theorem: a guided-flow commit with a complete
draft holding amount 45. -/
theorem transaction_invariants_amended_witness :
    (UserData.mk (some TxType.gasto) (some ("🍽️ Comida")) (some 45)
        (some ("Efectivo")) none none).amount = some (45 : ℚ) ∧
    (0 : ℚ) < 45 ∧
    (∀ t ∈ (_save_transaction false (DB.mk [] 1 []) 0 7
        (UserData.mk (some TxType.gasto) (some ("🍽️ Comida")) (some 45)
          (some ("Efectivo")) none none) "almuerzo" none).1.transactions,
      t ∈ (DB.mk [] 1 []).transactions ∨
        (0 < t.amount ∧ (t.type = TxType.gasto ∨ t.type = TxType.ingreso))) :=
  ⟨rfl, by norm_num,
   transaction_invariants_amended.1 false (DB.mk [] 1 []) 0 7
     (UserData.mk (some TxType.gasto) (some ("🍽️ Comida")) (some 45)
       (some ("Efectivo")) none none) "almuerzo" none 45 rfl (by norm_num)⟩

end GastosBot
